import Mathlib

/-!
# The `Store` / `StoreManager` interface of the path-sensitive analysis

Embedding of `include/clang/Analysis/PathSensitive/Store.h`.

* Part 1 models the types the header only forward-declares or includes.
* Part 2 embeds the member functions that have a body in the header
  (the default hooks of `StoreManager` and the nested class `CastResult`).
* Part 3 models, from the specification, the pure virtual members
  `Retrieve`, `Bind` and `RemoveDeadBindings`, which have no body in the header.
* Part 4 states and proves the properties.
-/

set_option linter.unusedVariables false

namespace clang

/-! ## Part 1: types used by the header -/

/-- Modelled from the spec: the class `MemRegion` (MemRegion.h is included by
Store.h but is not among the sources). "Regions form a rooted forest: every
non-top-level region has exactly one parent (its containing object)". -/
inductive MemRegion where
  | top (id : Nat) : MemRegion
  | sub (parent : MemRegion) (id : Nat) : MemRegion
deriving DecidableEq, Repr

/-- Modelled from the spec: the class `Loc` (SVals.h is not among the sources).
"Location: either a concrete/symbolic address of a Region, or an
unknown/undefined marker. Immutable, value-typed, comparable." -/
inductive Loc where
  | regionAddr (r : MemRegion) : Loc
  | unknown : Loc
  | undefined : Loc
deriving DecidableEq, Repr

/-- Modelled from the spec: the class `NonLoc` (SVals.h is not among the
sources): a value that is not a location, a "concrete constant" or a
"symbolic expression" (represented by the identifier of its symbol). -/
inductive NonLoc where
  | concreteInt (n : Int) : NonLoc
  | symbolic (sym : Nat) : NonLoc
deriving DecidableEq, Repr

/-- Modelled from the spec: the class `SVal` (SVals.h is not among the
sources). "Value: concrete constant, symbolic expression, or an unknown
marker"; the "uninitialized" value is "distinguishable from unknown"; the
lvalue operations return a location as a value. -/
inductive SVal where
  | unknown : SVal
  | undefined : SVal
  | loc (l : Loc) : SVal
  | nonloc (n : NonLoc) : SVal
deriving DecidableEq, Repr

/-- Modelled from the spec: the value constructed by the expression
`UnknownVal()` (the class `UnknownVal` of SVals.h is not among the sources):
the "unknown" marker. -/
def UnknownVal : SVal := SVal.unknown

/-- Modelled from the spec: the enumeration `BinaryOperator::Opcode` (declared
in the AST headers, not among the sources), represented by the integer value
of the enumerator. -/
abbrev BinaryOperator.Opcode : Type := Nat

/-- Modelled from the spec: `QualType` (not among the sources), the optional
type hint of `Retrieve`; `QualType()` is the null type, here `none`. -/
abbrev QualType : Type := Option Nat

/-- Modelled from the spec: `Stmt` (forward-declared at Store.h:32), the
"analysis point" handed to `RemoveDeadBindings`, identified by a number. -/
abbrev Stmt : Type := Nat

/-- Modelled from the spec: what the handle `Store` (Store.h:28,
`typedef const void* Store;`, an untyped pointer in the header) points to:
"conceptually a persistent associative structure from Location to Value",
here the list of its bindings, most recent first. -/
abbrev Store : Type := List (Loc × SVal)

/-- Modelled from the spec: the class `GRState` (forward-declared at
Store.h:30). "Program State: external entity that embeds exactly one Store plus
other path-sensitive facts" (the facts are kept as a list of encoded facts). -/
structure GRState where
  store : Store
  facts : List Nat
deriving DecidableEq, Repr

namespace StoreManager

/-! ## Part 2: members of `StoreManager` with a body in Store.h

A parameter of type `const GRState *` is an `Option GRState` and one of type
`const MemRegion *` is an `Option MemRegion`; the null pointer is `none`. -/

/-- `StoreManager::AddRegionView` (Store.h:48-52): `return state;`. -/
def AddRegionView (state : Option GRState) (view : Option MemRegion)
    (base : Option MemRegion) : Option GRState :=
  state

/-- `StoreManager::getSizeInElements` (Store.h:117-119):
`return UnknownVal();`. -/
def getSizeInElements (state : Option GRState) (region : Option MemRegion) : SVal :=
  UnknownVal

/-- The nested class `StoreManager::CastResult` (Store.h:125-132) with its two
private members `state` and `region`. -/
structure CastResult where
  state : Option GRState
  region : Option MemRegion
deriving DecidableEq, Repr

/-- `CastResult::getState` (Store.h:129): `return state;`. -/
def CastResult.getState (c : CastResult) : Option GRState := c.state

/-- `CastResult::getRegion` (Store.h:130): `return region;`. -/
def CastResult.getRegion (c : CastResult) : Option MemRegion := c.region

/-- The constructor `CastResult(const GRState *s, const MemRegion* r = 0)`
(Store.h:131) called with both arguments: `state(s), region(r)`. -/
def CastResult.ctor (s : Option GRState) (r : Option MemRegion) : CastResult :=
  ⟨s, r⟩

/-- The same constructor (Store.h:131) called as `CastResult(s)`: the omitted
argument `r` takes its declared default `0`, the null region. -/
def CastResult.ctorOfState (s : Option GRState) : CastResult :=
  CastResult.ctor s none

/-- `StoreManager::EvalBinOp` (Store.h:141-144): `return UnknownVal();`. -/
def EvalBinOp (state : Option GRState) (Op : BinaryOperator.Opcode)
    (lhs : Loc) (rhs : NonLoc) : SVal :=
  UnknownVal

/-- `StoreManager::setExtent` (Store.h:162-165): `return state;`. -/
def setExtent (state : Option GRState) (region : Option MemRegion)
    (extent : SVal) : Option GRState :=
  state

/-- `StoreManager::setDefaultValue` (Store.h:168-172): `return state;`. -/
def setDefaultValue (state : Option GRState) (region : Option MemRegion)
    (val : SVal) : Option GRState :=
  state

/-- One call of one of the two hooks `setExtent` / `setDefaultValue`, with the
arguments other than the state. Used to speak of compositions of the hooks. -/
inductive HookCall where
  | callSetExtent (region : Option MemRegion) (extent : SVal) : HookCall
  | callSetDefaultValue (region : Option MemRegion) (val : SVal) : HookCall
deriving DecidableEq, Repr

/-- Performs one hook call on a state by calling the embedded hook. -/
def HookCall.run (state : Option GRState) : HookCall → Option GRState
  | .callSetExtent region extent => setExtent state region extent
  | .callSetDefaultValue region val => setDefaultValue state region val

/-- Performs a sequence of hook calls, each on the state the previous one
returned. -/
def runHooks : List HookCall → Option GRState → Option GRState
  | [], state => state
  | c :: cs, state => runHooks cs (c.run state)

end StoreManager

/-! ## Part 3: the pure virtual members, modelled from the specification

`Retrieve`, `Bind` (Store.h:57-74) and `RemoveDeadBindings` (Store.h:151-153)
are declared `= 0` in the header and the backends that define them are not
among the sources. The definitions below follow the wording of the
specification (section 4.1) and of the comments on the declarations. -/

/-- Modelled from the spec: containment in the region forest (MemRegion.h is
not among the sources). `r.isSubRegionOf R` holds when `R` is the parent of
`r` or a more remote ancestor of it ("every non-top-level region has exactly
one parent (its containing object)"). -/
def MemRegion.isSubRegionOf : MemRegion → MemRegion → Bool
  | .top _, _ => false
  | .sub parent _, R => parent == R || parent.isSubRegionOf R

/-- Modelled from the spec: a location lies within another one when both are
addresses of regions and the first region is a subregion of the second. The
unknown and undefined markers lie within nothing and contain nothing. -/
def Loc.isWithin : Loc → Loc → Bool
  | .regionAddr r, .regionAddr R => r.isSubRegionOf R
  | _, _ => false

/-- Modelled from the spec: two locations overlap ("non-overlapping regions",
section 8) when they are equal or one lies within the other. -/
def Loc.overlaps (L1 L2 : Loc) : Bool :=
  L1 == L2 || L1.isWithin L2 || L2.isWithin L1

/-- Modelled from the spec: `SymbolReaper` (not among the sources), the
"liveness oracle that classifies which symbolic values and regions are still
reachable/live at analysisPoint". The regions it classifies as live are the
live roots of `RemoveDeadBindings`; a symbol held by a value is reached through
the binding that holds it. -/
structure SymbolReaper where
  isLiveRegion : Stmt → MemRegion → Bool
  isLiveSymbol : Stmt → Nat → Bool

/-- Modelled from the spec: a region is "(transitively, through the region
hierarchy) reachable" from the regions that `root` designates when the region
itself or one of its ancestors is such a root. -/
def MemRegion.isReachable (root : MemRegion → Bool) : MemRegion → Bool
  | .top id => root (.top id)
  | .sub parent id => root (.sub parent id) || parent.isReachable root

/-- Modelled from the spec: the region a value gives access to, if any: the
region whose address the value is. A constant, a symbolic value and the unknown
and undefined values give access to no region. -/
def SVal.pointee : SVal → Option MemRegion
  | .loc (.regionAddr r) => some r
  | _ => none

namespace StoreManager

/-- Modelled from the spec: the choices that section 4.1 leaves to the backend
(the backends, `CreateBasicStoreManager` and the two others of Store.h:205-207,
are not among the sources): whether `Bind` is region-aware, and the value
`Retrieve` derives "lazily and deterministically from context" for a location
without a binding. -/
structure Backend where
  regionAware : Bool
  derivedValue : Loc → QualType → SVal

/-- Modelled from the spec: the body of the pure virtual `StoreManager::Retrieve`
(Store.h:64-65) is not among the sources. "Returns the value bound to loc in
state's store. If no explicit binding exists, the result must be derived lazily
and deterministically from context (...) - never an error." -/
def Retrieve (B : Backend) (state : GRState) (loc : Loc) (T : QualType) : SVal :=
  match state.store.lookup loc with
  | some val => val
  | none => B.derivedValue loc T

/-- Modelled from the spec: tells whether a binding of the input store is
superseded by a new binding for `loc`: it is a "prior binding for loc" or, "for
a region-aware backend", a binding to one of "that region's known subregions". -/
def isSuperseded (B : Backend) (loc : Loc) (b : Loc × SVal) : Bool :=
  b.1 == loc || (B.regionAware && b.1.isWithin loc)

/-- Modelled from the spec: the body of the pure virtual `StoreManager::Bind`
(Store.h:74) is not among the sources. "Returns a new state whose store equals
the input store plus the single binding loc -> val, overwriting any prior
binding for loc. Must not alter bindings for unrelated locations; for a
region-aware backend, binding a parent region must invalidate (conceptually
clear) stale bindings to that region's known subregions". The other facts of
the state are those of the input state. -/
def Bind (B : Backend) (state : GRState) (loc : Loc) (val : SVal) : GRState :=
  ⟨(loc, val) :: state.store.filter (fun b => !isSuperseded B loc b), state.facts⟩

/-- Modelled from the spec: the regions the values of the bindings `K` give
access to. -/
def pointees (K : Store) : List MemRegion :=
  K.filterMap (fun b => b.2.pointee)

/-- Modelled from the spec: the roots of the reachability, once the bindings
`K` are known to be retained: the regions the oracle classifies as live at the
analysis point (the "live roots"), and the regions the values of `K` give
access to, which are reachable from a live root through those bindings. -/
def isRoot (SymReaper : SymbolReaper) (P : Stmt) (K : Store) (r : MemRegion) : Bool :=
  SymReaper.isLiveRegion P r || (pointees K).contains r

/-- Modelled from the spec: a binding is reached from the roots that `K`
determines when its location is the address of a region "(transitively, through
the region hierarchy) reachable" from one of them. A binding to the unknown or
undefined marker is the binding of no region. -/
def isReached (SymReaper : SymbolReaper) (P : Stmt) (K : Store) (b : Loc × SVal) : Bool :=
  match b.1 with
  | .regionAddr r => r.isReachable (isRoot SymReaper P K)
  | _ => false

/-- Modelled from the spec: the bindings of the store `S` found reachable after
`n` rounds of marking. No binding is marked at first; a round marks the
bindings of `S` reached from the live roots and from the values of the
bindings marked so far. -/
def markLive (SymReaper : SymbolReaper) (P : Stmt) (S : Store) : Nat → Store
  | 0 => []
  | n + 1 => S.filter (isReached SymReaper P (markLive SymReaper P S n))

/-- Modelled from the spec: the condition under which `RemoveDeadBindings`
retains a binding of the store `S`: "retaining only bindings whose location and
value are (transitively, through the region hierarchy) reachable from a live
root". The location must be reached from the roots determined by the bindings
that as many rounds of marking as `S` has bindings find reachable; the value of
a retained binding is reachable through that binding. Every binding of a live
root is retained, whatever its value ("GC soundness", section 8). -/
def isRetained (SymReaper : SymbolReaper) (P : Stmt) (S : Store) (b : Loc × SVal) : Bool :=
  isReached SymReaper P (markLive SymReaper P S S.length) b

/-- Modelled from the spec: the region a binding contributes to the roots, if
any: the region its location addresses when the oracle classifies that region
as live ("regions kept alive purely because they are a live root are visible to
the caller"). -/
def liveRoot (SymReaper : SymbolReaper) (P : Stmt) (b : Loc × SVal) : Option MemRegion :=
  match b.1 with
  | .regionAddr r => if SymReaper.isLiveRegion P r then some r else none
  | _ => none

/-- Modelled from the spec: the body of the pure virtual
`StoreManager::RemoveDeadBindings` (Store.h:151-153) is not among the sources.
"Produce a new store retaining only bindings whose location and value are
(transitively, through the region hierarchy) reachable from a live root;
additionally append to rootsOut every region that must be treated as a root".
The argument `Loc` of the declaration is the analysis point `P`; the reference
parameter `RegionRoots` is returned, extended, as the second component. -/
def RemoveDeadBindings (state : GRState) (P : Stmt) (SymReaper : SymbolReaper)
    (RegionRoots : List MemRegion) : Store × List MemRegion :=
  (state.store.filter (isRetained SymReaper P state.store),
   RegionRoots ++ state.store.filterMap (liveRoot SymReaper P))

end StoreManager

/-! ## Part 4: properties -/

namespace StoreManager

/-- Looking a location up in a filtered store gives what the store itself
gives, when every binding for that location passes the filter. -/
theorem lookup_filter_of_pass (p : Loc × SVal → Bool) (k : Loc)
    (hk : ∀ v, p (k, v) = true) (l : Store) :
    (l.filter p).lookup k = l.lookup k := by
  induction l with
  | nil => rfl
  | cons b t ih =>
    obtain ⟨a, v⟩ := b
    by_cases hka : k = a
    · subst hka
      simp [List.filter, hk, List.lookup]
    · have hbeq : (k == a) = false := by simpa using hka
      cases hp : p (a, v) with
      | true => simp [List.filter, hp, List.lookup, hbeq, ih]
      | false => simp [List.filter, hp, List.lookup, hbeq, ih]

/-- A binding for a location that does not overlap `L1` and differs from it is
not superseded by a new binding for `L1`. -/
theorem not_isSuperseded_of_disjoint (B : Backend) (L1 L2 : Loc) (v : SVal)
    (hne : L1 ≠ L2) (hno : Loc.overlaps L1 L2 = false) :
    isSuperseded B L1 (L2, v) = false := by
  have h2 : L2.isWithin L1 = false := by
    cases h : L2.isWithin L1 with
    | false => rfl
    | true => simp [Loc.overlaps, h] at hno
  have h1 : (L2 == L1) = false := by
    simpa using fun h : L2 = L1 => hne h.symm
  simp [isSuperseded, h1, h2]

/-- C1: binding round-trip. For every backend choice, state `S`, location `L`,
value `V` and type hint `T`, `Retrieve` applied at `L` to the state returned by
`Bind S L V` returns exactly `V`. -/
theorem Retrieve_Bind_same (B : Backend) (S : GRState) (L : Loc) (V : SVal)
    (T : QualType) :
    Retrieve B (Bind B S L V) L T = V := by
  simp [Retrieve, Bind, List.lookup]

/-- C2: non-interference of `Bind`. For two distinct, non-overlapping locations
`L1` and `L2`, `Retrieve` at `L2` gives the same value in the state returned by
`Bind S L1 V` as in `S`, and the binding of `L2` itself is the same in both
stores. -/
theorem Retrieve_Bind_other (B : Backend) (S : GRState) (L1 L2 : Loc) (V : SVal)
    (T : QualType) (hne : L1 ≠ L2) (hno : Loc.overlaps L1 L2 = false) :
    Retrieve B (Bind B S L1 V) L2 T = Retrieve B S L2 T
    ∧ (Bind B S L1 V).store.lookup L2 = S.store.lookup L2 := by
  have hbeq : (L2 == L1) = false := by
    simpa using fun h : L2 = L1 => hne h.symm
  have hpass : ∀ v, (fun b => !isSuperseded B L1 b) (L2, v) = true := by
    intro v
    simp [not_isSuperseded_of_disjoint B L1 L2 v hne hno]
  have hl := lookup_filter_of_pass (fun b => !isSuperseded B L1 b) L2 hpass S.store
  constructor
  · simp only [Retrieve, Bind, List.lookup, hbeq, hl]
  · simp only [Bind, List.lookup, hbeq, hl]

/-- Witness of C2: binding the variable region 0 in a region-aware backend
leaves the value 5 bound to the distinct, non-overlapping variable region 1. -/
theorem Retrieve_Bind_other_witness :
    Loc.regionAddr (.top 0) ≠ Loc.regionAddr (.top 1)
    ∧ Loc.overlaps (.regionAddr (.top 0)) (.regionAddr (.top 1)) = false
    ∧ (Retrieve ⟨true, fun _ _ => UnknownVal⟩
        (Bind ⟨true, fun _ _ => UnknownVal⟩
          ⟨[(.regionAddr (.top 1), .nonloc (.concreteInt 5))], []⟩
          (.regionAddr (.top 0)) (.nonloc (.concreteInt 7)))
        (.regionAddr (.top 1)) none
      = Retrieve ⟨true, fun _ _ => UnknownVal⟩
          ⟨[(.regionAddr (.top 1), .nonloc (.concreteInt 5))], []⟩
          (.regionAddr (.top 1)) none
      ∧ (Bind ⟨true, fun _ _ => UnknownVal⟩
          ⟨[(.regionAddr (.top 1), .nonloc (.concreteInt 5))], []⟩
          (.regionAddr (.top 0)) (.nonloc (.concreteInt 7))).store.lookup
            (.regionAddr (.top 1))
        = List.lookup (Loc.regionAddr (.top 1))
            [(Loc.regionAddr (.top 1), SVal.nonloc (.concreteInt 5))]) :=
  ⟨by decide, by decide,
   Retrieve_Bind_other ⟨true, fun _ _ => UnknownVal⟩
     ⟨[(.regionAddr (.top 1), .nonloc (.concreteInt 5))], []⟩
     (.regionAddr (.top 0)) (.regionAddr (.top 1)) (.nonloc (.concreteInt 7)) none
     (by decide) (by decide)⟩

/-- The non-overlap condition of the non-interference property is needed in a
region-aware backend: binding the variable region 0 clears the binding of its
subregion 3, whose value 5 is then no longer retrieved. -/
theorem Retrieve_Bind_parent_clears_subregion :
    Retrieve ⟨true, fun _ _ => UnknownVal⟩
        (Bind ⟨true, fun _ _ => UnknownVal⟩
          ⟨[(.regionAddr (.sub (.top 0) 3), .nonloc (.concreteInt 5))], []⟩
          (.regionAddr (.top 0)) (.nonloc (.concreteInt 7)))
        (.regionAddr (.sub (.top 0) 3)) none
      = UnknownVal
    ∧ Retrieve ⟨true, fun _ _ => UnknownVal⟩
        ⟨[(.regionAddr (.sub (.top 0) 3), .nonloc (.concreteInt 5))], []⟩
        (.regionAddr (.sub (.top 0) 3)) none
      = SVal.nonloc (.concreteInt 5) := by
  decide

/-- C3: the default pointer arithmetic is unknown. For every state, opcode,
location `lhs` and non-location value `rhs`, the base `EvalBinOp` returns
`UnknownVal`. -/
theorem EvalBinOp_unknown (state : Option GRState) (Op : BinaryOperator.Opcode)
    (lhs : Loc) (rhs : NonLoc) :
    EvalBinOp state Op lhs rhs = UnknownVal :=
  rfl

/-- C4: `AddRegionView` defaults to a no-op. For every state and regions `view`
and `base` it returns the very state it was given, hence the same store and the
same other facts. -/
theorem AddRegionView_noop (state : Option GRState) (view base : Option MemRegion) :
    AddRegionView state view base = state
    ∧ (AddRegionView state view base).map GRState.store = state.map GRState.store
    ∧ (AddRegionView state view base).map GRState.facts = state.map GRState.facts :=
  ⟨rfl, rfl, rfl⟩

/-- C5: `CastResult` is a faithful pair. For every state `s` and every region
`r`, the null region included, the `CastResult` constructed from `s` and `r`
has `getState() = s` and `getRegion() = r`. -/
theorem CastResult_faithful (s : Option GRState) (r : Option MemRegion) :
    (CastResult.ctor s r).getState = s ∧ (CastResult.ctor s r).getRegion = r :=
  ⟨rfl, rfl⟩

/-- Reachability is monotone in the roots. -/
theorem isReachable_mono (root1 root2 : MemRegion → Bool)
    (h : ∀ x, root1 x = true → root2 x = true) (r : MemRegion) :
    r.isReachable root1 = true → r.isReachable root2 = true := by
  induction r with
  | top id => exact h _
  | sub parent id ih =>
    simp only [MemRegion.isReachable, Bool.or_eq_true]
    rintro (h1 | h1)
    · exact Or.inl (h _ h1)
    · exact Or.inr (ih h1)

/-- A region is a root for `K` exactly when the oracle classifies it as live or
the value of a binding of `K` gives access to it. -/
theorem isRoot_iff (O : SymbolReaper) (P : Stmt) (K : Store) (x : MemRegion) :
    isRoot O P K x = true
      ↔ O.isLiveRegion P x = true ∨ ∃ c, c ∈ K ∧ c.2.pointee = some x := by
  simp [isRoot, pointees, List.contains]

/-- A binding reached from the roots of `K` is reached from the roots of every
store that holds the bindings of `K`. -/
theorem isReached_mono (O : SymbolReaper) (P : Stmt) (K K2 : Store)
    (h : ∀ b, b ∈ K → b ∈ K2) (b : Loc × SVal) :
    isReached O P K b = true → isReached O P K2 b = true := by
  unfold isReached
  cases b.1 with
  | regionAddr r =>
    apply isReachable_mono
    intro x hx
    rw [isRoot_iff] at hx ⊢
    rcases hx with hx | ⟨c, hc, hcx⟩
    · exact Or.inl hx
    · exact Or.inr ⟨c, h c hc, hcx⟩
  | unknown => exact id
  | undefined => exact id

/-- A filter that lets more through keeps at least as many elements. -/
theorem length_filter_le_of_imp {α : Type} (p q : α → Bool) (l : List α)
    (h : ∀ x, x ∈ l → p x = true → q x = true) :
    (l.filter p).length ≤ (l.filter q).length := by
  induction l with
  | nil => simp
  | cons x t ih =>
    have iht := ih (fun y hy => h y (List.mem_cons_of_mem x hy))
    have hx := h x (List.mem_cons_self x t)
    cases hp : p x with
    | false =>
      cases hq : q x with
      | false => simpa [List.filter, hp, hq] using iht
      | true => simp only [List.filter, hp, hq, List.length_cons]; omega
    | true =>
      have hq := hx hp
      simpa [List.filter, hp, hq] using iht

/-- A filter that lets more through and keeps as many elements keeps the same
elements. -/
theorem filter_eq_of_imp_of_length_eq {α : Type} (p q : α → Bool) (l : List α)
    (h : ∀ x, x ∈ l → p x = true → q x = true)
    (hlen : (l.filter p).length = (l.filter q).length) :
    l.filter q = l.filter p := by
  induction l with
  | nil => simp
  | cons x t ih =>
    have himp := fun y hy => h y (List.mem_cons_of_mem x hy)
    have hle := length_filter_le_of_imp p q t himp
    have hx := h x (List.mem_cons_self x t)
    cases hp : p x with
    | false =>
      cases hq : q x with
      | false =>
        simp only [List.filter, hp, hq] at hlen ⊢
        exact ih himp hlen
      | true =>
        simp only [List.filter, hp, hq, List.length_cons] at hlen
        omega
    | true =>
      have hq := hx hp
      simp only [List.filter, hp, hq, List.length_cons] at hlen ⊢
      rw [ih himp (by omega)]

/-- Every marked binding is a binding of the store. -/
theorem mem_of_mem_markLive (O : SymbolReaper) (P : Stmt) (S : Store) (n : Nat)
    (b : Loc × SVal) (hb : b ∈ markLive O P S n) : b ∈ S := by
  cases n with
  | zero => simp [markLive] at hb
  | succ n => exact (List.mem_filter.mp hb).1

/-- A round of marking never unmarks a binding. -/
theorem markLive_succ_subset (O : SymbolReaper) (P : Stmt) (S : Store) (n : Nat) :
    ∀ b, b ∈ markLive O P S n → b ∈ markLive O P S (n + 1) := by
  induction n with
  | zero => intro b hb; simp [markLive] at hb
  | succ n ih =>
    intro b hb
    have hb2 := List.mem_filter.mp hb
    exact List.mem_filter.mpr ⟨hb2.1, isReached_mono O P _ _ ih b hb2.2⟩

/-- A round of marking does not lower the number of marked bindings, and it
changes nothing when it keeps that number. -/
theorem markLive_succ_length (O : SymbolReaper) (P : Stmt) (S : Store) (n : Nat) :
    (markLive O P S n).length ≤ (markLive O P S (n + 1)).length
    ∧ ((markLive O P S n).length = (markLive O P S (n + 1)).length
        → markLive O P S (n + 1) = markLive O P S n) := by
  cases n with
  | zero =>
    refine ⟨by simp [markLive], ?_⟩
    intro h
    have h0 : (markLive O P S (0 + 1)).length = 0 := by
      rw [← h]; simp [markLive]
    have h1 := List.length_eq_zero.mp h0
    rw [h1]; rfl
  | succ n =>
    have himp : ∀ x, x ∈ S → isReached O P (markLive O P S n) x = true
        → isReached O P (markLive O P S (n + 1)) x = true :=
      fun x _ => isReached_mono O P _ _ (markLive_succ_subset O P S n) x
    exact ⟨length_filter_le_of_imp _ _ S himp,
      fun h => filter_eq_of_imp_of_length_eq _ _ S himp h⟩

/-- Once a round of marking changes nothing, no later round does. -/
theorem markLive_stable (O : SymbolReaper) (P : Stmt) (S : Store) (n : Nat)
    (h : markLive O P S (n + 1) = markLive O P S n) (k : Nat) :
    markLive O P S (n + k) = markLive O P S n := by
  induction k with
  | zero => rfl
  | succ k ih =>
    have e : markLive O P S (n + (k + 1))
        = S.filter (isReached O P (markLive O P S (n + k))) := rfl
    rw [e, ih]
    exact h

/-- After `n` rounds, either the marking is stable or at least `n` bindings are
marked. -/
theorem markLive_progress (O : SymbolReaper) (P : Stmt) (S : Store) (n : Nat) :
    markLive O P S (n + 1) = markLive O P S n ∨ n ≤ (markLive O P S n).length := by
  induction n with
  | zero => exact Or.inr (Nat.zero_le _)
  | succ n ih =>
    have hstep := markLive_succ_length O P S n
    rcases ih with ih | ih
    · left
      have e : markLive O P S (n + 1 + 1)
          = S.filter (isReached O P (markLive O P S (n + 1))) := rfl
      rw [e, ih]
      exact ih
    · by_cases hlen : (markLive O P S n).length = (markLive O P S (n + 1)).length
      · left
        have hfix := hstep.2 hlen
        have e : markLive O P S (n + 1 + 1)
            = S.filter (isReached O P (markLive O P S (n + 1))) := rfl
        rw [e, hfix]
        exact hfix
      · right
        have := hstep.1
        omega

/-- As many rounds of marking as the store has bindings reach a stable marking:
one more round changes nothing. -/
theorem markLive_fixed (O : SymbolReaper) (P : Stmt) (S : Store) :
    markLive O P S (S.length + 1 + 1) = markLive O P S (S.length + 1) := by
  rcases markLive_progress O P S (S.length + 1) with h | h
  · exact h
  · have hle : (markLive O P S (S.length + 1)).length ≤ S.length :=
      List.length_filter_le _ _
    omega

/-- Every binding marked in some round is marked in the stable marking. -/
theorem markLive_subset_fixed (O : SymbolReaper) (P : Stmt) (S : Store) (n : Nat) :
    ∀ b, b ∈ markLive O P S n → b ∈ markLive O P S (S.length + 1) := by
  have chain : ∀ k m, ∀ b, b ∈ markLive O P S m → b ∈ markLive O P S (m + k) := by
    intro k
    induction k with
    | zero => intro m b hb; exact hb
    | succ k ih =>
      intro m b hb
      exact markLive_succ_subset O P S (m + k) b (ih m b hb)
  intro b hb
  by_cases hn : n ≤ S.length + 1
  · have := chain (S.length + 1 - n) n b hb
    have e : n + (S.length + 1 - n) = S.length + 1 := by omega
    rwa [e] at this
  · have e : n = S.length + 1 + (n - (S.length + 1)) := by omega
    rw [e, markLive_stable O P S (S.length + 1) (markLive_fixed O P S)] at hb
    exact hb

/-- The store `RemoveDeadBindings` returns is the stable marking of its input
store. -/
theorem RemoveDeadBindings_fst (state : GRState) (P : Stmt) (O : SymbolReaper)
    (R : List MemRegion) :
    (RemoveDeadBindings state P O R).1 = markLive O P state.store (state.store.length + 1) :=
  rfl

/-- Marking the stable marking of a store marks all of it. -/
theorem markLive_markLive (O : SymbolReaper) (P : Stmt) (S : Store) :
    markLive O P (markLive O P S (S.length + 1))
        ((markLive O P S (S.length + 1)).length + 1)
      = markLive O P S (S.length + 1) := by
  have hfixJ := markLive_fixed O P (markLive O P S (S.length + 1))
  generalize hK : markLive O P S (S.length + 1) = K at hfixJ ⊢
  generalize hJ : markLive O P K (K.length + 1) = J at hfixJ ⊢
  have hJstep : K.filter (isReached O P J) = J := by
    have e : markLive O P K (K.length + 1 + 1)
        = K.filter (isReached O P (markLive O P K (K.length + 1))) := rfl
    rw [e, hJ] at hfixJ
    exact hfixJ
  have hsub : ∀ n, ∀ b, b ∈ markLive O P S n → b ∈ J := by
    intro n
    induction n with
    | zero => intro b hb; simp [markLive] at hb
    | succ n ih =>
      intro b hb
      have hbK : b ∈ K := by
        rw [← hK]
        exact markLive_subset_fixed O P S (n + 1) b hb
      have hb2 := List.mem_filter.mp hb
      rw [← hJstep]
      exact List.mem_filter.mpr ⟨hbK, isReached_mono O P _ _ ih b hb2.2⟩
  rw [← hJstep]
  apply List.filter_eq_self.mpr
  intro b hb
  have hbJ : b ∈ J := by
    rw [← hK] at hb
    exact hsub (S.length + 1) b hb
  rw [← hJstep] at hbJ
  exact (List.mem_filter.mp hbJ).2

/-- GC soundness of the modelled collector: a binding of the store whose region
is a live root, or lies under one in the region hierarchy, is in the store
`RemoveDeadBindings` returns, whatever its value is. -/
theorem RemoveDeadBindings_keeps_live (state : GRState) (P : Stmt) (O : SymbolReaper)
    (R : List MemRegion) (r : MemRegion) (v : SVal)
    (hb : (Loc.regionAddr r, v) ∈ state.store)
    (hr : r.isReachable (O.isLiveRegion P) = true) :
    (Loc.regionAddr r, v) ∈ (RemoveDeadBindings state P O R).1 := by
  refine List.mem_filter.mpr ⟨hb, ?_⟩
  show r.isReachable (isRoot O P (markLive O P state.store state.store.length)) = true
  refine isReachable_mono _ _ ?_ r hr
  intro x hx
  exact (isRoot_iff O P _ x).mpr (Or.inl hx)

/-- The binding of a live root survives when its value is a symbol the oracle
does not classify as live, and the root is reported. -/
theorem RemoveDeadBindings_live_root_example :
    RemoveDeadBindings
        ⟨[(.regionAddr (.top 0), .nonloc (.symbolic 3))], []⟩ 0
        ⟨fun _ r => r == .top 0, fun _ _ => false⟩ []
      = ([(.regionAddr (.top 0), .nonloc (.symbolic 3))], [.top 0]) := by
  decide

/-- The collector follows the values of the store: with the variable region 0
as only live root, the bindings of regions 1 and 2 survive because region 0
holds the address of region 1 and region 1 that of region 2; the binding of
region 3, which nothing reaches, is removed. -/
theorem RemoveDeadBindings_chain_example :
    (RemoveDeadBindings
        ⟨[(.regionAddr (.top 2), .nonloc (.concreteInt 5)),
          (.regionAddr (.top 3), .nonloc (.concreteInt 7)),
          (.regionAddr (.top 1), .loc (.regionAddr (.top 2))),
          (.regionAddr (.top 0), .loc (.regionAddr (.top 1)))], []⟩ 0
        ⟨fun _ r => r == .top 0, fun _ _ => false⟩ []).1
      = [(.regionAddr (.top 2), .nonloc (.concreteInt 5)),
         (.regionAddr (.top 1), .loc (.regionAddr (.top 2))),
         (.regionAddr (.top 0), .loc (.regionAddr (.top 1)))] := by
  decide

/-- C6: idempotence of the garbage collection. Running `RemoveDeadBindings`
with the same analysis point and oracle on a state that carries the store a
first run produced yields that same store, whatever the root lists and the
other facts of the second state are. -/
theorem RemoveDeadBindings_idempotent (S : GRState) (P : Stmt) (O : SymbolReaper)
    (R R2 : List MemRegion) (facts : List Nat) :
    (RemoveDeadBindings ⟨(RemoveDeadBindings S P O R).1, facts⟩ P O R2).1
      = (RemoveDeadBindings S P O R).1 := by
  rw [RemoveDeadBindings_fst, RemoveDeadBindings_fst]
  exact markLive_markLive O P S.store

/-- C7: the default `setExtent` and `setDefaultValue` are no-ops. Each returns
the very state it was given, and every sequence of calls of the two hooks
returns the state it started from. -/
theorem setExtent_setDefaultValue_noop (state : Option GRState)
    (region : Option MemRegion) (extent val : SVal) :
    setExtent state region extent = state
    ∧ setDefaultValue state region val = state
    ∧ ∀ calls : List HookCall, runHooks calls state = state := by
  refine ⟨rfl, rfl, ?_⟩
  intro calls
  induction calls with
  | nil => rfl
  | cons c cs ih =>
    cases c with
    | callSetExtent r e => simpa [runHooks, HookCall.run, setExtent] using ih
    | callSetDefaultValue r v => simpa [runHooks, HookCall.run, setDefaultValue] using ih

/-- C8: the default `getSizeInElements` is unknown. For every state and region
it returns `UnknownVal`, which is neither a concrete nor a symbolic element
count. -/
theorem getSizeInElements_unknown (state : Option GRState) (region : Option MemRegion) :
    getSizeInElements state region = UnknownVal
    ∧ ∀ n : NonLoc, getSizeInElements state region ≠ SVal.nonloc n :=
  ⟨rfl, fun n h => by simp [getSizeInElements, UnknownVal] at h⟩

/-- C9: a `CastResult` built from a state alone denotes an unresolved cast. For
every state `s`, `CastResult(s)` has `getRegion()` null and `getState() = s`. -/
theorem CastResult_ofState (s : Option GRState) :
    (CastResult.ctorOfState s).getRegion = none
    ∧ (CastResult.ctorOfState s).getState = s :=
  ⟨rfl, rfl⟩

end StoreManager

end clang
